import Mathlib

/-!
Shallow embedding of the Firestore core query engine
(`Firestore/core/src/firebase/firestore/core/query.cc`): the immutable
`Query` value and its builder methods, the canonical order-by derivation,
the four-part document matcher, and structural query equality.

External collaborators that are declared but whose implementation is not part
of this source file (field paths, resource paths, document keys, filters,
bounds, field values) are modelled from the specification's description of the
capability interfaces they expose.
-/

namespace FirestoreCore

/-- Modelled from the spec: a field path is a hierarchical field identifier;
the path capability exposes equality and "a distinguished sentinel field path
representing order by document key". We model field paths as segment lists. -/
abbrev FieldPath := List String

/-- Modelled from the spec: the distinguished sentinel field path that means
"order by document key". -/
def FieldPath.KeyFieldPath : FieldPath := ["__name__"]

/-- Modelled from the spec: the distinguished document-key-path test of the
path capability. -/
def FieldPath.IsKeyFieldPath (f : FieldPath) : Bool :=
  f = FieldPath.KeyFieldPath

/-- Modelled from the spec: a hierarchical resource path, a list of segments
alternating collection and document names. -/
abbrev ResourcePath := List String

/-- Modelled from the spec: the prefix-of test of the path capability. -/
def ResourcePath.IsPrefixOf : ResourcePath → ResourcePath → Bool
  | [], _ => true
  | _ :: _, [] => false
  | a :: as, b :: bs => if a = b then ResourcePath.IsPrefixOf as bs else false

/-- Modelled from the spec: the immediate-parent-of test of the path
capability — the child lives directly in the parent, one level deeper. -/
def ResourcePath.IsImmediateParentOf (p q : ResourcePath) : Bool :=
  decide (q.length = p.length + 1) && ResourcePath.IsPrefixOf p q

/-- Modelled from the spec: a resource path identifies a single document
exactly when it has an even number of segments (collection/document pairs). -/
def DocumentKey.IsDocumentKey (p : ResourcePath) : Bool :=
  p.length % 2 = 0

/-- Modelled from the spec: a document key "has a collection identifier equal
to s" when the collection segment the document lives in (the second-to-last
path segment) equals s. -/
def DocumentKey.HasCollectionId (p : ResourcePath) (s : String) : Bool :=
  p.dropLast.getLast? = some s

/-- Modelled from the spec: field values, whose ordering and equality are an
external capability. We model the two kinds the engine compares: numeric
values and document references; numbers order by magnitude and sort before
references, references order lexicographically by path. -/
inductive Value where
  | intV (i : Int)
  | refV (p : ResourcePath)
deriving DecidableEq

/-- Modelled from the spec: lexicographic comparison of path segment lists,
used to order reference values. -/
def compareSegs : List String → List String → Ordering
  | [], [] => Ordering.eq
  | [], _ :: _ => Ordering.lt
  | _ :: _, [] => Ordering.gt
  | x :: xs, y :: ys =>
    match compare x y with
    | Ordering.eq => compareSegs xs ys
    | o => o

/-- Modelled from the spec: the external value-comparison capability. -/
def Value.CompareTo : Value → Value → Ordering
  | Value.intV a, Value.intV b => compare a b
  | Value.refV a, Value.refV b => compareSegs a b
  | Value.intV _, Value.refV _ => Ordering.lt
  | Value.refV _, Value.intV _ => Ordering.gt

/-- Modelled from the spec: the document capability — a key (its resource
path) plus a partial map from field paths to values, here an association
list. -/
structure Document where
  key : ResourcePath
  fields : List (FieldPath × Value)
deriving DecidableEq

/-- Modelled from the spec: `field(FieldPath) -> optional value`. -/
def Document.field (d : Document) (f : FieldPath) : Option Value :=
  (d.fields.find? (fun kv => kv.1 = f)).map (fun kv => kv.2)

/-- Direction of an order-by, from the source's `Direction` enumeration. -/
inductive Direction where
  | Ascending
  | Descending
deriving DecidableEq

/-- An order-by: a field/direction pair (source's `OrderBy`). -/
structure OrderBy where
  field : FieldPath
  direction : Direction
deriving DecidableEq

/-- Modelled from the spec: the relational operator of a field filter. -/
inductive Operator where
  | LessThan
  | LessThanOrEqual
  | Equal
  | GreaterThan
  | GreaterThanOrEqual
  | ArrayContains
deriving DecidableEq

/-- Modelled from the spec: the external Filter capability, a field filter
exposing `Matches`, `IsInequality`, `field` and `op`. -/
structure Filter where
  field : FieldPath
  op : Operator
  value : Value
deriving DecidableEq

/-- Modelled from the spec: an inequality filter uses a relational operator
other than equality (and other than array membership). -/
def Filter.IsInequality (f : Filter) : Bool :=
  match f.op with
  | Operator.LessThan => true
  | Operator.LessThanOrEqual => true
  | Operator.GreaterThan => true
  | Operator.GreaterThanOrEqual => true
  | Operator.Equal => false
  | Operator.ArrayContains => false

/-- Modelled from the spec: `Matches(document) -> bool` of the Filter
capability — the document has a value at the filter's field and that value
stands in the operator's relation to the filter value. Array membership is
not modelled (no array values in the value model) and never matches. -/
def Filter.Matches (f : Filter) (d : Document) : Bool :=
  match d.field f.field with
  | none => false
  | some v =>
    match f.op with
    | Operator.LessThan => Value.CompareTo v f.value = Ordering.lt
    | Operator.LessThanOrEqual => Value.CompareTo v f.value ≠ Ordering.gt
    | Operator.Equal => v = f.value
    | Operator.GreaterThan => Value.CompareTo v f.value = Ordering.gt
    | Operator.GreaterThanOrEqual => Value.CompareTo v f.value ≠ Ordering.lt
    | Operator.ArrayContains => false

/-- Modelled from the spec: a bound (cursor) is an ordered tuple of boundary
values plus one flag. The flag is the source's `before_`: the bound is
positioned immediately before documents that compare equal to its components.
An inclusive start bound has `before = true`; an inclusive end bound has
`before = false` (the spec's single `inclusive` flag, read per side). -/
structure Bound where
  components : List Value
  before : Bool
deriving DecidableEq

/-- Modelled from the spec: walk the canonical order-bys and the bound
components pairwise in lock-step; compare each bound component against the
document's value at that order-by's field (against the document's key for the
key sentinel field), reversing the comparison for a descending direction;
the first non-equal pair decides. A document value that is absent (unreachable
through `Matches`, which checks order-by applicability and filters first) is
treated as smaller than every bound component. -/
def boundCompare : List OrderBy → List Value → Document → Ordering
  | ob :: obs, c :: cs, d =>
    let raw :=
      if ob.field.IsKeyFieldPath then
        Value.CompareTo c (Value.refV d.key)
      else
        match d.field ob.field with
        | some v => Value.CompareTo c v
        | none => Ordering.gt
    let adj := if ob.direction = Direction.Descending then raw.swap else raw
    if adj = Ordering.eq then boundCompare obs cs d else adj
  | _, _, _ => Ordering.eq

/-- Modelled from the spec: whether the bound sorts before the document under
the given canonical order-by sequence; on an exact tie the `before` flag
decides (a bound positioned before its position also counts as sorting
before an exactly-equal document). -/
def Bound.SortsBeforeDocument (b : Bound) (ordering : List OrderBy)
    (d : Document) : Bool :=
  let r := boundCompare ordering b.components d
  if b.before then decide (r ≠ Ordering.gt) else decide (r = Ordering.lt)

/-- Spec orientation of the bound comparison (spec section 4.4 speaks of the
document sorting before the bound): the document sorts before the bound
exactly when the bound does not sort before (or, per its `before` flag, at)
the document. -/
def docSortsBeforeBound (ordering : List OrderBy) (d : Document)
    (b : Bound) : Bool :=
  !(b.SortsBeforeDocument ordering d)

/-- The immutable query value: scope path, optional collection group, filter
sequence, explicit order-by sequence, optional limit, optional start and end
bounds (source's `Query` members `path_`, `collection_group_`, `filters_`,
`explicit_order_bys_`, `limit_`, `start_at_`, `end_at_`; the limit is
modelled from the spec as an optional count since the sentinel constant lives
in the header, which is not part of this source file). -/
structure Query where
  path : ResourcePath
  collection_group : Option String
  filters : List Filter
  explicit_order_bys : List OrderBy
  limit : Option Int
  start_at : Option Bound
  end_at : Option Bound
deriving DecidableEq

/-- Modelled from the spec: the root constructor `New(scope_path,
collection_group?)` — empty filters and order-bys, no limit, no bounds. -/
def Query.root (p : ResourcePath) (cg : Option String) : Query :=
  { path := p
    collection_group := cg
    filters := []
    explicit_order_bys := []
    limit := none
    start_at := none
    end_at := none }

/-- The public two-argument constructor `Query::Query(ResourcePath,
std::string)`: it always wraps the collection-group string in a shared
pointer, so the stored collection group is present even for the empty
string. -/
def Query.ofPathAndGroup (p : ResourcePath) (s : String) : Query :=
  Query.root p (some s)

/-- `Query::IsDocumentQuery`: the scope path is a document key, there is no
collection group, and there are no filters. -/
def Query.IsDocumentQuery (q : Query) : Bool :=
  DocumentKey.IsDocumentKey q.path && q.collection_group = none
    && q.filters = []

/-- `Query::InequalityFilterField`: the field of the first inequality filter,
if any. -/
def Query.InequalityFilterField (q : Query) : Option FieldPath :=
  (q.filters.find? (fun f => f.IsInequality)).map (fun f => f.field)

/-- `Query::FirstOrderByField`: the field of the first explicit order-by,
if any. -/
def Query.FirstOrderByField (q : Query) : Option FieldPath :=
  q.explicit_order_bys.head?.map (fun ob => ob.field)

/-- The else-branch of `Query::order_bys`: copy the explicit order-bys,
tracking whether any of them orders by the document key, and when none does
append a key order-by whose direction matches the last explicit entry
(ascending when there is none). -/
def Query.orderBysFromExplicit (q : Query) : List OrderBy :=
  let found_key_order := q.explicit_order_bys.any (fun ob => ob.field.IsKeyFieldPath)
  if found_key_order then
    q.explicit_order_bys
  else
    let last_direction :=
      match q.explicit_order_bys.getLast? with
      | none => Direction.Ascending
      | some ob => ob.direction
    q.explicit_order_bys ++ [⟨FieldPath.KeyFieldPath, last_direction⟩]

/-- `Query::order_bys`: the canonical order-by derivation. When an inequality
filter exists and there is no explicit order-by, the result is the inequality
field (unless it is the key field) followed by the key field, both ascending.
Otherwise the source first asserts (`HARD_ASSERT`, a fatal abort) that the
inequality field, if present, equals the first explicit order-by field —
modelled by returning `none` — and then copies the explicit order-bys,
appending a key order-by when none is present. Memoization is dropped: the
computation is a pure function of the query. -/
def Query.order_bys (q : Query) : Option (List OrderBy) :=
  match q.InequalityFilterField, q.FirstOrderByField with
  | some inequality_field, none =>
    if inequality_field.IsKeyFieldPath then
      some [⟨FieldPath.KeyFieldPath, Direction.Ascending⟩]
    else
      some [⟨inequality_field, Direction.Ascending⟩,
            ⟨FieldPath.KeyFieldPath, Direction.Ascending⟩]
  | some inequality_field, some first_order_by_field =>
    if inequality_field = first_order_by_field then
      some q.orderBysFromExplicit
    else
      none
  | none, _ => some q.orderBysFromExplicit

/-- `Query::AddingFilter`: fails on a document query, fails when the filter
is an inequality on a field different from the present inequality filter
field, otherwise appends the filter. -/
def Query.AddingFilter (q : Query) (f : Filter) : Option Query :=
  if q.IsDocumentQuery then none
  else if f.IsInequality then
    match q.InequalityFilterField with
    | some query_inequality_field =>
      if query_inequality_field = f.field then
        some { q with filters := q.filters ++ [f] }
      else none
    | none => some { q with filters := q.filters ++ [f] }
  else some { q with filters := q.filters ++ [f] }

/-- `Query::AddingOrderBy`: fails on a document query, fails when this is the
first explicit order-by and an inequality filter exists on a different field,
otherwise appends the order-by. -/
def Query.AddingOrderBy (q : Query) (ob : OrderBy) : Option Query :=
  if q.IsDocumentQuery then none
  else if q.explicit_order_bys = [] then
    match q.InequalityFilterField with
    | some inequality =>
      if inequality = ob.field then
        some { q with explicit_order_bys := q.explicit_order_bys ++ [ob] }
      else none
    | none => some { q with explicit_order_bys := q.explicit_order_bys ++ [ob] }
  else some { q with explicit_order_bys := q.explicit_order_bys ++ [ob] }

/-- `Query::WithLimit`: replace the limit. -/
def Query.WithLimit (q : Query) (n : Int) : Query :=
  { q with limit := some n }

/-- `Query::StartingAt`: replace the start bound. -/
def Query.StartingAt (q : Query) (b : Bound) : Query :=
  { q with start_at := some b }

/-- `Query::EndingAt`: replace the end bound. -/
def Query.EndingAt (q : Query) (b : Bound) : Query :=
  { q with end_at := some b }

/-- `Query::AsCollectionQueryAtPath`: rescope to the given path with the
collection group cleared, all other fields preserved. -/
def Query.AsCollectionQueryAtPath (q : Query) (p : ResourcePath) : Query :=
  { q with path := p, collection_group := none }

/-- `Query::MatchesPathAndCollectionGroup`: collection-group mode when a
collection group is present, exact-document mode when the scope path is a
document key, collection (immediate-parent) mode otherwise. -/
def Query.MatchesPathAndCollectionGroup (q : Query) (d : Document) : Bool :=
  match q.collection_group with
  | some g =>
    DocumentKey.HasCollectionId d.key g && ResourcePath.IsPrefixOf q.path d.key
  | none =>
    if DocumentKey.IsDocumentKey q.path then
      decide (q.path = d.key)
    else
      ResourcePath.IsImmediateParentOf q.path d.key

/-- `Query::MatchesFilters`: every filter matches the document. -/
def Query.MatchesFilters (q : Query) (d : Document) : Bool :=
  q.filters.all (fun f => f.Matches d)

/-- `Query::MatchesOrderBy`: every explicit order-by on a non-key field finds
a value in the document; an order-by on the key always matches. -/
def Query.MatchesOrderBy (q : Query) (d : Document) : Bool :=
  q.explicit_order_bys.all (fun ob =>
    if ob.field = FieldPath.KeyFieldPath then true
    else (d.field ob.field).isSome)

/-- `Query::MatchesBounds`: computes the canonical ordering unconditionally
(hence `none` when the order-by derivation trips its assertion), then rejects
when a start bound is present that does not sort before the document, or an
end bound is present that sorts before the document. -/
def Query.MatchesBounds (q : Query) (d : Document) : Option Bool :=
  q.order_bys.map (fun ordering =>
    (match q.start_at with
     | some b => b.SortsBeforeDocument ordering d
     | none => true)
    &&
    (match q.end_at with
     | some b => !(b.SortsBeforeDocument ordering d)
     | none => true))

/-- `Query::Matches`: scope, order-by applicability and filter checks first
(short-circuiting, so the bound check and its order-by derivation run only
when the first three pass), then the bound check. -/
def Query.Matches (q : Query) (d : Document) : Option Bool :=
  if q.MatchesPathAndCollectionGroup d && q.MatchesOrderBy d
      && q.MatchesFilters d then
    q.MatchesBounds d
  else
    some false

/-- `operator==(const Query&, const Query&)`: compares path, collection
group and filter sequence first (the C++ `&&` chain short-circuits, so
nothing else is evaluated when one of them differs); only then does it
evaluate `order_bys()` on both sides — a fatal abort of either derivation
(the defensive assertion) propagates as `none` — and compare the canonical
sequences, the limits and both bounds. -/
def Query.equals (l r : Query) : Option Bool :=
  if decide (l.path = r.path)
      && decide (l.collection_group = r.collection_group)
      && decide (l.filters = r.filters) then
    match l.order_bys, r.order_bys with
    | some lo, some ro =>
      some (decide (lo = ro)
        && decide (l.limit = r.limit)
        && decide (l.start_at = r.start_at)
        && decide (l.end_at = r.end_at))
    | _, _ => none
  else
    some false

/-- One builder method invocation, for quantifying over the builder API. -/
inductive BuilderCall where
  | addingFilter (f : Filter)
  | addingOrderBy (ob : OrderBy)
  | withLimit (n : Int)
  | startingAt (b : Bound)
  | endingAt (b : Bound)
  | asCollectionQueryAtPath (p : ResourcePath)

/-- Dispatch one builder call on a receiver, `none` on a precondition
failure. -/
def applyBuilder (q : Query) : BuilderCall → Option Query
  | BuilderCall.addingFilter f => q.AddingFilter f
  | BuilderCall.addingOrderBy ob => q.AddingOrderBy ob
  | BuilderCall.withLimit n => some (q.WithLimit n)
  | BuilderCall.startingAt b => some (q.StartingAt b)
  | BuilderCall.endingAt b => some (q.EndingAt b)
  | BuilderCall.asCollectionQueryAtPath p => some (q.AsCollectionQueryAtPath p)

/-- State-passing rendering of one builder method call: the pair (receiver
state after the call, returned value). Every builder method in the source is
declared const and assigns no member of the receiver — each builds its result
from copies via `AppendingTo` and the private constructor — so the receiver
component threads through unchanged. -/
def applyBuilderS (q : Query) (c : BuilderCall) : Query × Option Query :=
  (q, applyBuilder q c)

/-- A query value reachable from the root constructor through builder calls
that do not fail their preconditions. -/
inductive Reachable : Query → Prop where
  | root (p : ResourcePath) (cg : Option String) : Reachable (Query.root p cg)
  | step {q q' : Query} (c : BuilderCall) :
      Reachable q → applyBuilder q c = some q' → Reachable q'

/-- The two-case canonical order-by derivation in the specification's own
words (spec section 4.2): when an inequality filter exists and the explicit
order-bys are empty, the result is the key alone (ascending) when the
inequality field is the key, and otherwise the inequality field followed by
the key, both ascending; in every other case the result is a copy of the
explicit order-bys with a key entry appended when no explicit entry orders by
the key, its direction that of the final explicit entry (ascending when the
list is empty). -/
def specOrderBys (q : Query) : List OrderBy :=
  match q.InequalityFilterField with
  | some ineq =>
    if q.explicit_order_bys = [] then
      if ineq.IsKeyFieldPath then
        [⟨FieldPath.KeyFieldPath, Direction.Ascending⟩]
      else
        [⟨ineq, Direction.Ascending⟩,
         ⟨FieldPath.KeyFieldPath, Direction.Ascending⟩]
    else
      q.explicit_order_bys ++
        (if q.explicit_order_bys.all (fun ob => !ob.field.IsKeyFieldPath) then
          [⟨FieldPath.KeyFieldPath,
            ((q.explicit_order_bys.getLast?).map OrderBy.direction).getD
              Direction.Ascending⟩]
         else [])
  | none =>
    q.explicit_order_bys ++
      (if q.explicit_order_bys.all (fun ob => !ob.field.IsKeyFieldPath) then
        [⟨FieldPath.KeyFieldPath,
          ((q.explicit_order_bys.getLast?).map OrderBy.direction).getD
            Direction.Ascending⟩]
       else [])

/-- All inequality filters of a query share one field. -/
def IneqShared (q : Query) : Prop :=
  ∀ f1 ∈ q.filters, ∀ f2 ∈ q.filters,
    f1.IsInequality = true → f2.IsInequality = true → f1.field = f2.field

/-- The explicit order-bys mention the document-key field at most once, and
only as the final entry. -/
def goodKeyPlacement (q : Query) : Prop :=
  ∀ ob ∈ q.explicit_order_bys.dropLast, ob.field ≠ FieldPath.KeyFieldPath

/- Concrete fixtures for counterexamples and witnesses. -/

/-- Counterexample query for claim C1: collection query on `["c"]` after
`AddingOrderBy((title), Ascending)` then `AddingFilter(score > 0)`. -/
def qViol1 : Query :=
  { path := ["c"], collection_group := none
    filters := [⟨["score"], Operator.GreaterThan, Value.intV 0⟩]
    explicit_order_bys := [⟨["title"], Direction.Ascending⟩]
    limit := none, start_at := none, end_at := none }

/-- Failing input for claim C2: collection query on `["books"]` after
`AddingOrderBy((pages), Ascending)` then `AddingFilter(year > 1900)`. -/
def qViol2 : Query :=
  { path := ["books"], collection_group := none
    filters := [⟨["year"], Operator.GreaterThan, Value.intV 1900⟩]
    explicit_order_bys := [⟨["pages"], Direction.Ascending⟩]
    limit := none, start_at := none, end_at := none }

/-- The spec's derived-ordering example query: filters `[age > 21]`, no
explicit order-bys. -/
def qAge : Query :=
  { path := ["people"], collection_group := none
    filters := [⟨["age"], Operator.GreaterThan, Value.intV 21⟩]
    explicit_order_bys := [], limit := none, start_at := none, end_at := none }

/-- Counterexample query for claim C3: collection query on `["rooms"]` after
`AddingOrderBy((__name__), Ascending)` then `AddingOrderBy((name),
Ascending)`. -/
def qC3 : Query :=
  { path := ["rooms"], collection_group := none, filters := []
    explicit_order_bys := [⟨FieldPath.KeyFieldPath, Direction.Ascending⟩,
                           ⟨["name"], Direction.Ascending⟩]
    limit := none, start_at := none, end_at := none }

/-- Witness query for claim C3: collection query on `["rooms"]` with one
explicit order-by on `(name)`. -/
def qW3 : Query :=
  { path := ["rooms"], collection_group := none, filters := []
    explicit_order_bys := [⟨["name"], Direction.Ascending⟩]
    limit := none, start_at := none, end_at := none }

/-- The spec's bound-comparison example bound: inclusive start bound with
component `[100]`. -/
def bStart100 : Bound := { components := [Value.intV 100], before := true }

/-- The spec's bound-comparison example query: explicit order-by
`(score, Descending)` (canonical ordering `[(score, Descending),
(__name__, Descending)]`) with the inclusive start bound `[100]`. -/
def qC5 : Query :=
  { path := ["games"], collection_group := none, filters := []
    explicit_order_bys := [⟨["score"], Direction.Descending⟩]
    limit := none, start_at := some bStart100, end_at := none }

/-- The canonical ordering of `qC5`. -/
def obsC5 : List OrderBy :=
  [⟨["score"], Direction.Descending⟩,
   ⟨FieldPath.KeyFieldPath, Direction.Descending⟩]

/-- A document in the `games` collection with `score = 99`. -/
def doc99 : Document := { key := ["games", "g1"], fields := [(["score"], Value.intV 99)] }

/-- A document in the `games` collection with `score = 100`. -/
def doc100 : Document := { key := ["games", "g2"], fields := [(["score"], Value.intV 100)] }

/-- A document in the `games` collection with `score = 101`. -/
def doc101 : Document := { key := ["games", "g3"], fields := [(["score"], Value.intV 101)] }

/-- Witness filter for claim C7: `stars > 3`. -/
def fC7 : Filter := ⟨["stars"], Operator.GreaterThan, Value.intV 3⟩

/-- Query for claim C9 built with one explicit order-by `(name, Ascending)`;
its canonical ordering appends the implicit key entry. -/
def q9a : Query :=
  { path := ["rooms"], collection_group := none, filters := []
    explicit_order_bys := [⟨["name"], Direction.Ascending⟩]
    limit := none, start_at := none, end_at := none }

/-- Query for claim C9 built with explicit order-bys `(name, Ascending)` and
`(__name__, Ascending)`; its canonical ordering equals that of `q9a` though
the raw explicit lists differ. -/
def q9b : Query :=
  { path := ["rooms"], collection_group := none, filters := []
    explicit_order_bys := [⟨["name"], Direction.Ascending⟩,
                           ⟨FieldPath.KeyFieldPath, Direction.Ascending⟩]
    limit := none, start_at := none, end_at := none }

/- Helper lemmas shared by the claim theorems. -/

lemma ineq_none_iff (q : Query) :
    q.InequalityFilterField = none ↔ ∀ g ∈ q.filters, g.IsInequality = false := by
  unfold Query.InequalityFilterField
  rw [Option.map_eq_none', List.find?_eq_none]
  simp [Bool.not_eq_true]

lemma ineq_some_spec (q : Query) (x : FieldPath)
    (h : q.InequalityFilterField = some x) :
    ∃ g ∈ q.filters, g.IsInequality = true ∧ g.field = x := by
  unfold Query.InequalityFilterField at h
  rw [Option.map_eq_some'] at h
  obtain ⟨g, hg, hx⟩ := h
  exact ⟨g, List.mem_of_find?_eq_some hg, List.find?_some hg, hx⟩

lemma exists_diff_ineq_iff (q : Query) (hs : IneqShared q) (y : FieldPath) :
    (∃ g ∈ q.filters, g.IsInequality = true ∧ g.field ≠ y) ↔
      (∃ x, q.InequalityFilterField = some x ∧ x ≠ y) := by
  constructor
  · rintro ⟨g, hm, hi, hne⟩
    cases hI : q.InequalityFilterField with
    | none =>
      have := (ineq_none_iff q).mp hI g hm
      rw [hi] at this
      cases this
    | some x =>
      obtain ⟨g0, hm0, hi0, hf0⟩ := ineq_some_spec q x hI
      refine ⟨x, rfl, ?_⟩
      rw [← hf0, ← hs g hm g0 hm0 hi hi0]
      exact hne
  · rintro ⟨x, hI, hne⟩
    obtain ⟨g0, hm0, hi0, hf0⟩ := ineq_some_spec q x hI
    refine ⟨g0, hm0, hi0, ?_⟩
    rw [hf0]
    exact hne

lemma firstOrderBy_none_iff (q : Query) :
    q.FirstOrderByField = none ↔ q.explicit_order_bys = [] := by
  unfold Query.FirstOrderByField
  rw [Option.map_eq_none', List.head?_eq_none_iff]

lemma firstOrderBy_some_ne_nil (q : Query) (x : FieldPath)
    (h : q.FirstOrderByField = some x) : q.explicit_order_bys ≠ [] := by
  intro hnil
  rw [(firstOrderBy_none_iff q).mpr hnil] at h
  cases h

lemma all_not_key_eq_not_any (l : List OrderBy) :
    (l.all fun ob => !ob.field.IsKeyFieldPath)
      = !(l.any fun ob => ob.field.IsKeyFieldPath) := by
  induction l with
  | nil => rfl
  | cons x xs ih => simp [List.all_cons, List.any_cons, ih, Bool.not_or]

lemma orderBysFromExplicit_eq (q : Query) :
    q.orderBysFromExplicit =
      q.explicit_order_bys ++
        (if q.explicit_order_bys.all (fun ob => !ob.field.IsKeyFieldPath) then
          [⟨FieldPath.KeyFieldPath,
            ((q.explicit_order_bys.getLast?).map OrderBy.direction).getD
              Direction.Ascending⟩]
         else []) := by
  unfold Query.orderBysFromExplicit
  rw [all_not_key_eq_not_any]
  cases hA : q.explicit_order_bys.any (fun ob => ob.field.IsKeyFieldPath) with
  | false =>
    cases hL : q.explicit_order_bys.getLast? with
    | none => simp [hA, hL]
    | some ob => simp [hA, hL]
  | true => simp [hA]

lemma order_bys_eq_spec (q : Query) (obs : List OrderBy)
    (h : q.order_bys = some obs) : obs = specOrderBys q := by
  unfold Query.order_bys at h
  cases hI : q.InequalityFilterField with
  | none =>
    cases hF : q.FirstOrderByField with
    | none =>
      rw [hI, hF] at h
      injection h with h
      unfold specOrderBys
      rw [hI, ← h]
      exact orderBysFromExplicit_eq q
    | some first =>
      rw [hI, hF] at h
      injection h with h
      unfold specOrderBys
      rw [hI, ← h]
      exact orderBysFromExplicit_eq q
  | some ineq =>
    cases hF : q.FirstOrderByField with
    | none =>
      rw [hI, hF] at h
      have hE : q.explicit_order_bys = [] := (firstOrderBy_none_iff q).mp hF
      unfold specOrderBys
      simp only [hI]
      rw [if_pos hE]
      cases hkey : ineq.IsKeyFieldPath with
      | true =>
        simp only [hkey, if_true] at h ⊢
        injection h with h
        exact h.symm
      | false =>
        simp only [hkey, Bool.false_eq_true, if_false] at h ⊢
        injection h with h
        exact h.symm
    | some first =>
      rw [hI, hF] at h
      simp only [] at h
      by_cases heq : ineq = first
      · rw [if_pos heq] at h
        injection h with h
        have hne : q.explicit_order_bys ≠ [] := firstOrderBy_some_ne_nil q first hF
        unfold specOrderBys
        simp only [hI]
        rw [if_neg hne, ← h]
        exact orderBysFromExplicit_eq q
      · rw [if_neg heq] at h
        cases h

lemma isKey_eq_true_iff (f : FieldPath) :
    FieldPath.IsKeyFieldPath f = true ↔ f = FieldPath.KeyFieldPath := by
  simp [FieldPath.IsKeyFieldPath]

lemma totality_of_append (l : List OrderBy) (dflt : Direction)
    (hk : ∀ ob ∈ l.dropLast, ob.field ≠ FieldPath.KeyFieldPath) :
    ((l ++ (if l.all (fun ob => !ob.field.IsKeyFieldPath) then
        [(⟨FieldPath.KeyFieldPath, dflt⟩ : OrderBy)] else [])).countP
          (fun ob => ob.field.IsKeyFieldPath) = 1)
    ∧ (((l ++ (if l.all (fun ob => !ob.field.IsKeyFieldPath) then
        [(⟨FieldPath.KeyFieldPath, dflt⟩ : OrderBy)] else [])).getLast?).map
          OrderBy.field = some FieldPath.KeyFieldPath) := by
  cases hA : l.all (fun ob => !ob.field.IsKeyFieldPath) with
  | true =>
    rw [if_pos rfl]
    constructor
    · rw [List.countP_append]
      have h0 : l.countP (fun ob => ob.field.IsKeyFieldPath) = 0 := by
        rw [List.countP_eq_zero]
        intro ob hm
        have := List.all_eq_true.mp hA ob hm
        simp [Bool.not_eq_true'] at this
        simp [this]
      rw [h0]
      simp [List.countP_cons, isKey_eq_true_iff]
    · rw [List.getLast?_concat]
      rfl
  | false =>
    rw [if_neg Bool.false_ne_true, List.append_nil]
    obtain ⟨kob, hkm, hkk⟩ := List.all_eq_false.mp hA
    have hkk' : kob.field = FieldPath.KeyFieldPath := by
      simp [Bool.not_eq_true'] at hkk
      exact (isKey_eq_true_iff kob.field).mp hkk
    have hnil : l ≠ [] := List.ne_nil_of_mem hkm
    have hdecomp := List.dropLast_append_getLast hnil
    have hlastkey : (l.getLast hnil).field = FieldPath.KeyFieldPath := by
      rcases (List.mem_append.mp (by rw [hdecomp]; exact hkm)) with hin | hin
      · exact absurd hkk' (hk kob hin)
      · rw [List.mem_singleton] at hin
        rw [← hin]
        exact hkk'
    constructor
    · conv_lhs => rw [← hdecomp]
      rw [List.countP_append]
      have h0 : l.dropLast.countP (fun ob => ob.field.IsKeyFieldPath) = 0 := by
        rw [List.countP_eq_zero]
        intro ob hm
        simp [isKey_eq_true_iff]
        exact hk ob hm
      rw [h0]
      simp [List.countP_cons, isKey_eq_true_iff, hlastkey]
    · rw [List.getLast?_eq_getLast l hnil, Option.map_some', hlastkey]

/- Claim theorems. -/

/-- Claim C1 (code bug): the claimed invariant — for every reachable Query,
if `explicit_order_bys` is non-empty and an inequality filter exists, the
first explicit order-by's field equals the inequality field — is violated by
a reachable query: `AddingOrderBy((title), Ascending)` followed by
`AddingFilter(score > 0)` succeeds (the source's `AddingFilter` never checks
the first order-by, see the TODO at query.cc:156), leaving first explicit
order-by field `(title)` different from inequality field `(score)`. -/
theorem c1_invariant_violated :
    Reachable qViol1
    ∧ qViol1.explicit_order_bys ≠ []
    ∧ qViol1.InequalityFilterField = some ["score"]
    ∧ qViol1.FirstOrderByField = some ["title"]
    ∧ (["title"] : FieldPath) ≠ ["score"] := by
  refine ⟨?_, by decide, by decide, by decide, by decide⟩
  have h0 : Reachable (Query.root ["c"] (none : Option String)) :=
    Reachable.root ["c"] none
  have h1 : Reachable (⟨["c"], none, [],
      [⟨["title"], Direction.Ascending⟩], none, none, none⟩ : Query) :=
    Reachable.step (BuilderCall.addingOrderBy ⟨["title"], Direction.Ascending⟩)
      h0 (by decide)
  exact Reachable.step
    (BuilderCall.addingFilter ⟨["score"], Operator.GreaterThan, Value.intV 0⟩)
    h1 (by decide)

/-- Claim C2 (code bug): `order_bys()` does not return the two-case derived
sequence for every Query — on the reachable query `qViol2` (explicit order-by
`(pages)` then inequality filter `year > 1900`, construction allowed by the
missing check in `AddingFilter`) the source trips its defensive `HARD_ASSERT`
and aborts (modelled as `none`) while the claimed derivation yields
`[(pages, Ascending), (__name__, Ascending)]`. On queries that pass the
assertion the derivation does hold, e.g. the spec's example `[age > 21]` with
no explicit order-bys gives `[(age, Ascending), (__name__, Ascending)]`. -/
theorem c2_order_bys_divergence :
    Reachable qViol2
    ∧ qViol2.order_bys = none
    ∧ specOrderBys qViol2 =
        [⟨["pages"], Direction.Ascending⟩,
         ⟨FieldPath.KeyFieldPath, Direction.Ascending⟩]
    ∧ Reachable qAge
    ∧ qAge.order_bys =
        some [⟨["age"], Direction.Ascending⟩,
              ⟨FieldPath.KeyFieldPath, Direction.Ascending⟩]
    ∧ specOrderBys qAge =
        [⟨["age"], Direction.Ascending⟩,
         ⟨FieldPath.KeyFieldPath, Direction.Ascending⟩] := by
  refine ⟨?_, by decide, by decide, ?_, by decide, by decide⟩
  · have h0 : Reachable (Query.root ["books"] (none : Option String)) :=
      Reachable.root ["books"] none
    have h1 : Reachable (⟨["books"], none, [],
        [⟨["pages"], Direction.Ascending⟩], none, none, none⟩ : Query) :=
      Reachable.step (BuilderCall.addingOrderBy ⟨["pages"], Direction.Ascending⟩)
        h0 (by decide)
    exact Reachable.step
      (BuilderCall.addingFilter ⟨["year"], Operator.GreaterThan, Value.intV 1900⟩)
      h1 (by decide)
  · have h0 : Reachable (Query.root ["people"] (none : Option String)) :=
      Reachable.root ["people"] none
    exact Reachable.step
      (BuilderCall.addingFilter ⟨["age"], Operator.GreaterThan, Value.intV 21⟩)
      h0 (by decide)

/-- Claim C4: the scope component of `Matches` is decided by exactly one of
three mutually exclusive modes — collection-group mode when a collection
group is present (collection identifier matches and the scope path is a
prefix), exact-document mode when the scope path identifies a document
(paths equal), collection mode otherwise (scope path is the immediate
parent) — together with the spec's four concrete scope examples. -/
theorem c4_scope_modes :
    (∀ (q : Query) (d : Document),
      (∀ g, q.collection_group = some g →
        (q.MatchesPathAndCollectionGroup d = true ↔
          (DocumentKey.HasCollectionId d.key g = true
            ∧ ResourcePath.IsPrefixOf q.path d.key = true)))
      ∧ (q.collection_group = none → DocumentKey.IsDocumentKey q.path = true →
          (q.MatchesPathAndCollectionGroup d = true ↔ q.path = d.key))
      ∧ (q.collection_group = none → DocumentKey.IsDocumentKey q.path = false →
          (q.MatchesPathAndCollectionGroup d = true ↔
            ResourcePath.IsImmediateParentOf q.path d.key = true)))
    ∧ Query.MatchesPathAndCollectionGroup (Query.root ["rooms"] none)
        ⟨["rooms", "room1"], []⟩ = true
    ∧ Query.MatchesPathAndCollectionGroup (Query.root ["rooms"] none)
        ⟨["rooms", "room1", "messages", "m1"], []⟩ = false
    ∧ Query.MatchesPathAndCollectionGroup (Query.root [] (some "messages"))
        ⟨["rooms", "room1", "messages", "m1"], []⟩ = true
    ∧ Query.MatchesPathAndCollectionGroup (Query.root [] (some "messages"))
        ⟨["rooms", "room1"], []⟩ = false := by
  refine ⟨?_, by decide, by decide, by decide, by decide⟩
  intro q d
  refine ⟨?_, ?_, ?_⟩
  · intro g hg
    simp [Query.MatchesPathAndCollectionGroup, hg, Bool.and_eq_true]
  · intro hg hdoc
    simp [Query.MatchesPathAndCollectionGroup, hg, hdoc]
  · intro hg hdoc
    simp [Query.MatchesPathAndCollectionGroup, hg, hdoc]

/-- Claim C6: the order-by component of `Matches` holds exactly when every
entry of `explicit_order_bys` on a non-key field finds a value in the
document; a key-field entry never causes a mismatch, and with empty
`explicit_order_bys` every document passes. -/
theorem c6_matches_order_by :
    (∀ (q : Query) (d : Document),
      (q.MatchesOrderBy d = true ↔
        ∀ ob ∈ q.explicit_order_bys,
          ob.field ≠ FieldPath.KeyFieldPath → (d.field ob.field).isSome = true))
    ∧ (∀ (q : Query) (d : Document),
        Query.MatchesOrderBy { q with explicit_order_bys := [] } d = true)
    ∧ (∀ (q : Query) (d : Document) (dir : Direction),
        Query.MatchesOrderBy
          { q with explicit_order_bys := [⟨FieldPath.KeyFieldPath, dir⟩] } d
            = true) := by
  refine ⟨?_, ?_, ?_⟩
  · intro q d
    simp only [Query.MatchesOrderBy, List.all_eq_true]
    constructor
    · intro h ob hm hne
      have hx := h ob hm
      rw [if_neg hne] at hx
      exact hx
    · intro h ob hm
      by_cases hk : ob.field = FieldPath.KeyFieldPath
      · rw [if_pos hk]
      · rw [if_neg hk]
        exact h ob hm hk
  · intro q d
    simp [Query.MatchesOrderBy]
  · intro q d dir
    simp [Query.MatchesOrderBy]

/-- Claim C8: builder calls never mutate the receiver. In the state-passing
rendering of each builder method (the source methods are const and assign no
member), the receiver state after any call — succeeding or failing — has all
six compared accessors equal to their values before the call. -/
theorem c8_builder_non_mutation :
    ∀ (q : Query) (c : BuilderCall),
      (applyBuilderS q c).1.path = q.path
      ∧ (applyBuilderS q c).1.collection_group = q.collection_group
      ∧ (applyBuilderS q c).1.filters = q.filters
      ∧ (applyBuilderS q c).1.explicit_order_bys = q.explicit_order_bys
      ∧ (applyBuilderS q c).1.limit = q.limit
      ∧ (applyBuilderS q c).1.start_at = q.start_at
      ∧ (applyBuilderS q c).1.end_at = q.end_at :=
  fun _ _ => ⟨rfl, rfl, rfl, rfl, rfl, rfl, rfl⟩

/-- Claim C10: the public two-argument constructor always stores a present
collection group (it wraps the given string, even the empty one, in a shared
pointer), hence `IsDocumentQuery()` is false for every such query — even
when the path identifies a single document — and its scope match is the
collection-group mode. -/
theorem c10_ctor_collection_group :
    (∀ (p : ResourcePath) (s : String),
      (Query.ofPathAndGroup p s).collection_group = some s
      ∧ (Query.ofPathAndGroup p s).IsDocumentQuery = false
      ∧ ∀ d : Document,
          (Query.ofPathAndGroup p s).MatchesPathAndCollectionGroup d
            = (DocumentKey.HasCollectionId d.key s
                && ResourcePath.IsPrefixOf p d.key))
    ∧ DocumentKey.IsDocumentKey ["rooms", "r1"] = true
    ∧ (Query.ofPathAndGroup ["rooms", "r1"] "").IsDocumentQuery = false
    ∧ (Query.ofPathAndGroup ["rooms", "r1"] "").filters = [] := by
  refine ⟨?_, by decide, by decide, by decide⟩
  intro p s
  refine ⟨rfl, ?_, fun d => rfl⟩
  simp [Query.ofPathAndGroup, Query.root, Query.IsDocumentQuery]

/-- Claim C9, counterexample: on the reachable query `qViol2` every compared
field trivially equals itself, yet `operator==` does not return true —
after the path, collection group and filters compare equal it evaluates
`order_bys()`, which trips the defensive `HARD_ASSERT` and aborts (modelled
as `none`), so the claimed equivalence fails as stated. -/
theorem c9_counterexample :
    Reachable qViol2
    ∧ qViol2.order_bys = none
    ∧ Query.equals qViol2 qViol2 = none
    ∧ ¬ (Query.equals qViol2 qViol2 = some true) := by
  refine ⟨?_, by decide, by decide, by decide⟩
  have h0 : Reachable (Query.root ["books"] (none : Option String)) :=
    Reachable.root ["books"] none
  have h1 : Reachable (⟨["books"], none, [],
      [⟨["pages"], Direction.Ascending⟩], none, none, none⟩ : Query) :=
    Reachable.step (BuilderCall.addingOrderBy ⟨["pages"], Direction.Ascending⟩)
      h0 (by decide)
  exact Reachable.step
    (BuilderCall.addingFilter ⟨["year"], Operator.GreaterThan, Value.intV 1900⟩)
    h1 (by decide)

/-- Claim C9, amended: for every pair of queries on which `order_bys()`
completes (does not trip the defensive assertion), `operator==` returns, and
returns true exactly when their paths, collection groups, filter sequences
(element by element), derived canonical `order_bys()` sequences (not the raw
explicit lists), limits and both bounds agree; consequently the reachable
queries `q9a` and `q9b`, built through different explicit-order-by call
sequences converging to the same canonical ordering, compare equal despite
different raw explicit lists, while changing only the limit makes queries
unequal. -/
theorem c9_equality_amended (l r : Query) (lo ro : List OrderBy)
    (hl : l.order_bys = some lo) (hr : r.order_bys = some ro) :
    (Query.equals l r ≠ none)
    ∧ (Query.equals l r = some true ↔
        (l.path = r.path ∧ l.collection_group = r.collection_group
          ∧ l.filters = r.filters ∧ lo = ro
          ∧ l.limit = r.limit ∧ l.start_at = r.start_at
          ∧ l.end_at = r.end_at))
    ∧ (Reachable q9a ∧ Reachable q9b
        ∧ q9a.explicit_order_bys ≠ q9b.explicit_order_bys
        ∧ Query.equals q9a q9b = some true)
    ∧ Query.equals q9a (q9a.WithLimit 5) = some false := by
  have h0 : Reachable (Query.root ["rooms"] (none : Option String)) :=
    Reachable.root ["rooms"] none
  have ha : Reachable q9a :=
    Reachable.step (BuilderCall.addingOrderBy ⟨["name"], Direction.Ascending⟩)
      h0 (by decide)
  have hb : Reachable q9b :=
    Reachable.step
      (BuilderCall.addingOrderBy ⟨FieldPath.KeyFieldPath, Direction.Ascending⟩)
      ha (by decide)
  refine ⟨?_, ?_, ⟨ha, hb, by decide, by decide⟩, by decide⟩
  · unfold Query.equals
    by_cases h3 : (decide (l.path = r.path)
        && decide (l.collection_group = r.collection_group)
        && decide (l.filters = r.filters)) = true
    · rw [if_pos h3]
      simp [hl, hr]
    · rw [if_neg h3]
      simp
  · unfold Query.equals
    by_cases h3 : (decide (l.path = r.path)
        && decide (l.collection_group = r.collection_group)
        && decide (l.filters = r.filters)) = true
    · rw [if_pos h3]
      simp only [Bool.and_eq_true, decide_eq_true_iff] at h3
      obtain ⟨⟨hp, hg⟩, hf⟩ := h3
      simp [hl, hr, hp, hg, hf, Bool.and_eq_true, decide_eq_true_iff,
        and_assoc]
    · rw [if_neg h3]
      constructor
      · intro hcon
        injection hcon with hcon
        cases hcon
      · rintro ⟨hp, hg, hf, -⟩
        exact absurd (by simp [hp, hg, hf]) h3

/-- Witness for claim C9's amended theorem at the concrete queries `q9a` and
`q9b`, whose canonical orderings both complete and agree. -/
theorem c9_equality_amended_witness :
    q9a.order_bys = some [⟨["name"], Direction.Ascending⟩,
      ⟨FieldPath.KeyFieldPath, Direction.Ascending⟩]
    ∧ q9b.order_bys = some [⟨["name"], Direction.Ascending⟩,
      ⟨FieldPath.KeyFieldPath, Direction.Ascending⟩]
    ∧ Query.equals q9a q9b = some true := by
  refine ⟨by decide, by decide, ?_⟩
  exact (c9_equality_amended q9a q9b
    [⟨["name"], Direction.Ascending⟩,
     ⟨FieldPath.KeyFieldPath, Direction.Ascending⟩]
    [⟨["name"], Direction.Ascending⟩,
     ⟨FieldPath.KeyFieldPath, Direction.Ascending⟩]
    (by decide) (by decide)).2.1.mpr ⟨rfl, rfl, rfl, rfl, rfl, rfl, rfl⟩

/-- Claim C3, counterexample: the reachable query `qC3` — built by
`AddingOrderBy((__name__), Ascending)` then `AddingOrderBy((name),
Ascending)` — has `order_bys() = [(__name__, Ascending), (name, Ascending)]`:
a field other than the document key is present, yet the key entry is not the
last entry, refuting the claimed totality property. -/
theorem c3_counterexample :
    Reachable qC3
    ∧ qC3.order_bys =
        some [⟨FieldPath.KeyFieldPath, Direction.Ascending⟩,
              ⟨["name"], Direction.Ascending⟩]
    ∧ (∃ ob ∈ [(⟨FieldPath.KeyFieldPath, Direction.Ascending⟩ : OrderBy),
               ⟨["name"], Direction.Ascending⟩],
          ob.field ≠ FieldPath.KeyFieldPath)
    ∧ ¬ (([(⟨FieldPath.KeyFieldPath, Direction.Ascending⟩ : OrderBy),
           ⟨["name"], Direction.Ascending⟩].getLast?).map OrderBy.field
            = some FieldPath.KeyFieldPath) := by
  refine ⟨?_, by decide, by decide, by decide⟩
  have h0 : Reachable (Query.root ["rooms"] (none : Option String)) :=
    Reachable.root ["rooms"] none
  have h1 : Reachable (⟨["rooms"], none, [],
      [⟨FieldPath.KeyFieldPath, Direction.Ascending⟩], none, none, none⟩ : Query) :=
    Reachable.step
      (BuilderCall.addingOrderBy ⟨FieldPath.KeyFieldPath, Direction.Ascending⟩)
      h0 (by decide)
  exact Reachable.step
    (BuilderCall.addingOrderBy ⟨["name"], Direction.Ascending⟩) h1 (by decide)

/-- Claim C3, amended: for every reachable Query whose explicit order-bys
mention the document-key field only, if at all, as the final entry, and whose
`order_bys()` completes (does not trip the defensive assertion), the
document-key field appears exactly once in the result, and the key entry is
the last entry whenever any other field is present. -/
theorem c3_totality_amended (q : Query) (obs : List OrderBy)
    (h1 : Reachable q) (h2 : goodKeyPlacement q)
    (h3 : q.order_bys = some obs) :
    obs.countP (fun ob => ob.field.IsKeyFieldPath) = 1
    ∧ ((∃ ob ∈ obs, ob.field ≠ FieldPath.KeyFieldPath) →
        (obs.getLast?).map OrderBy.field = some FieldPath.KeyFieldPath) := by
  have hspec := order_bys_eq_spec q obs h3
  subst hspec
  unfold specOrderBys
  cases hI : q.InequalityFilterField with
  | none =>
    simp only [hI]
    have ht := totality_of_append q.explicit_order_bys
      (((q.explicit_order_bys.getLast?).map OrderBy.direction).getD
        Direction.Ascending) h2
    exact ⟨ht.1, fun _ => ht.2⟩
  | some ineq =>
    simp only [hI]
    by_cases hE : q.explicit_order_bys = []
    · rw [if_pos hE]
      cases hkey : ineq.IsKeyFieldPath with
      | true =>
        rw [if_pos rfl]
        refine ⟨by decide, fun _ => by decide⟩
      | false =>
        rw [if_neg Bool.false_ne_true]
        have hne : ineq ≠ FieldPath.KeyFieldPath := by
          simpa [FieldPath.IsKeyFieldPath] using hkey
        constructor
        · simp [List.countP_cons, FieldPath.IsKeyFieldPath, hne]
        · intro _
          rfl
    · rw [if_neg hE]
      have ht := totality_of_append q.explicit_order_bys
        (((q.explicit_order_bys.getLast?).map OrderBy.direction).getD
          Direction.Ascending) h2
      exact ⟨ht.1, fun _ => ht.2⟩

/-- Witness for claim C3's amended theorem at the concrete reachable query
`qW3` (one explicit order-by on `(name)`), whose canonical ordering is
`[(name, Ascending), (__name__, Ascending)]`. -/
theorem c3_totality_amended_witness :
    Reachable qW3 ∧ goodKeyPlacement qW3
    ∧ qW3.order_bys =
        some [⟨["name"], Direction.Ascending⟩,
              ⟨FieldPath.KeyFieldPath, Direction.Ascending⟩]
    ∧ ([(⟨["name"], Direction.Ascending⟩ : OrderBy),
        ⟨FieldPath.KeyFieldPath, Direction.Ascending⟩].countP
          (fun ob => ob.field.IsKeyFieldPath) = 1)
    ∧ ((∃ ob ∈ [(⟨["name"], Direction.Ascending⟩ : OrderBy),
          ⟨FieldPath.KeyFieldPath, Direction.Ascending⟩],
            ob.field ≠ FieldPath.KeyFieldPath) →
        (([(⟨["name"], Direction.Ascending⟩ : OrderBy),
           ⟨FieldPath.KeyFieldPath, Direction.Ascending⟩].getLast?).map
             OrderBy.field = some FieldPath.KeyFieldPath)) := by
  have h0 : Reachable (Query.root ["rooms"] (none : Option String)) :=
    Reachable.root ["rooms"] none
  have hr : Reachable qW3 :=
    Reachable.step (BuilderCall.addingOrderBy ⟨["name"], Direction.Ascending⟩)
      h0 (by decide)
  have hk : goodKeyPlacement qW3 := by
    intro ob hm
    simp [qW3] at hm
  have hmain := c3_totality_amended qW3
    [⟨["name"], Direction.Ascending⟩,
     ⟨FieldPath.KeyFieldPath, Direction.Ascending⟩] hr hk (by decide)
  exact ⟨hr, hk, by decide, hmain.1, hmain.2⟩

/-- Claim C5, counterexample: with canonical ordering `[(score, Descending),
(__name__, Descending)]` and the inclusive start bound `[100]`, a document
with `score = 99` sorts after the bound under the descending direction
(larger sorts first), so it is NOT excluded by the start bound — `Matches`
accepts it — refuting the claim's final example, which says it is
excluded. -/
theorem c5_counterexample :
    Reachable qC5
    ∧ qC5.order_bys = some obsC5
    ∧ qC5.start_at = some bStart100
    ∧ qC5.MatchesBounds doc99 = some true
    ∧ qC5.Matches doc99 = some true := by
  refine ⟨?_, by decide, rfl, by decide, by decide⟩
  have h0 : Reachable (Query.root ["games"] (none : Option String)) :=
    Reachable.root ["games"] none
  have h1 : Reachable (⟨["games"], none, [],
      [⟨["score"], Direction.Descending⟩], none, none, none⟩ : Query) :=
    Reachable.step (BuilderCall.addingOrderBy ⟨["score"], Direction.Descending⟩)
      h0 (by decide)
  exact Reachable.step (BuilderCall.startingAt bStart100) h1 (by decide)

/-- Claim C5, amended: for every Query whose `order_bys()` completes and
every document, `Matches` rejects the document when a start bound is present
and the document sorts before it, and when an end bound is present and the
document does not sort before it; with both bounds absent the bound
component accepts every document. In the spec's example (canonical ordering
`[(score, Descending), (__name__, Descending)]`, inclusive start bound
`[100]`), a document with `score = 100` is not excluded by the start bound,
a document with `score = 99` is not excluded either, and a document with
`score = 101` is excluded. -/
theorem c5_bounds_amended (q : Query) (d : Document) (obs : List OrderBy)
    (h : q.order_bys = some obs) :
    (∀ sb, q.start_at = some sb → docSortsBeforeBound obs d sb = true →
      q.Matches d = some false)
    ∧ (∀ eb, q.end_at = some eb → docSortsBeforeBound obs d eb = false →
        q.Matches d = some false)
    ∧ (q.start_at = none → q.end_at = none → q.MatchesBounds d = some true)
    ∧ qC5.Matches doc100 = some true
    ∧ qC5.Matches doc99 = some true
    ∧ qC5.Matches doc101 = some false := by
  refine ⟨?_, ?_, ?_, by decide, by decide, by decide⟩
  · intro sb hsb hdoc
    unfold docSortsBeforeBound at hdoc
    rw [Bool.not_eq_true'] at hdoc
    unfold Query.Matches
    by_cases hpre : (q.MatchesPathAndCollectionGroup d && q.MatchesOrderBy d
        && q.MatchesFilters d) = true
    · rw [if_pos hpre]
      unfold Query.MatchesBounds
      rw [h, Option.map_some']
      simp [hsb, hdoc]
    · rw [if_neg hpre]
  · intro eb heb hdoc
    unfold docSortsBeforeBound at hdoc
    rw [Bool.not_eq_false'] at hdoc
    unfold Query.Matches
    by_cases hpre : (q.MatchesPathAndCollectionGroup d && q.MatchesOrderBy d
        && q.MatchesFilters d) = true
    · rw [if_pos hpre]
      unfold Query.MatchesBounds
      rw [h, Option.map_some']
      simp [heb, hdoc]
    · rw [if_neg hpre]
  · intro hs hn
    unfold Query.MatchesBounds
    rw [h, Option.map_some']
    simp [hs, hn]

/-- Witness for claim C5's amended theorem at the concrete query `qC5` and
document `doc101` (score 101 sorts before the descending start bound `[100]`,
so the document is rejected). -/
theorem c5_bounds_amended_witness :
    qC5.order_bys = some obsC5
    ∧ qC5.start_at = some bStart100
    ∧ docSortsBeforeBound obsC5 doc101 bStart100 = true
    ∧ qC5.Matches doc101 = some false := by
  refine ⟨by decide, rfl, by decide, ?_⟩
  exact (c5_bounds_amended qC5 doc101 obsC5 (by decide)).1 bStart100 rfl
    (by decide)

/-- Witness for claim C4 at a concrete collection-group query and
document. -/
theorem c4_scope_modes_witness :
    (Query.root [] (some "messages")).collection_group = some "messages"
    ∧ Query.MatchesPathAndCollectionGroup (Query.root [] (some "messages"))
        ⟨["rooms", "room1", "messages", "m1"], []⟩ = true := by
  refine ⟨rfl, ?_⟩
  exact ((c4_scope_modes.1 (Query.root [] (some "messages"))
    ⟨["rooms", "room1", "messages", "m1"], []⟩).1 "messages" rfl).mpr
    ⟨by decide, by decide⟩

/-- Witness for claim C6 at a concrete query with one explicit order-by and
a document carrying a value at that field. -/
theorem c6_matches_order_by_witness :
    Query.MatchesOrderBy q9a ⟨["rooms", "r1"], [(["name"], Value.intV 1)]⟩
      = true :=
  (c6_matches_order_by.1 q9a
    ⟨["rooms", "r1"], [(["name"], Value.intV 1)]⟩).mpr (by decide)

lemma ineqShared_extend {q : Query} {f : Filter} (h : IneqShared q)
    (hok : f.IsInequality = true →
      q.InequalityFilterField = none ∨
        q.InequalityFilterField = some f.field) :
    ∀ f1 ∈ q.filters ++ [f], ∀ f2 ∈ q.filters ++ [f],
      f1.IsInequality = true → f2.IsInequality = true → f1.field = f2.field := by
  have hold : ∀ g ∈ q.filters, g.IsInequality = true → f.IsInequality = true →
      g.field = f.field := by
    intro g hm hgi hfi
    rcases hok hfi with hnone | hsome
    · have hx := (ineq_none_iff q).mp hnone g hm
      rw [hgi] at hx
      cases hx
    · obtain ⟨g0, hm0, hi0, hf0⟩ := ineq_some_spec q f.field hsome
      rw [← hf0]
      exact h g hm g0 hm0 hgi hi0
  intro f1 h1 f2 h2 hi1 hi2
  rw [List.mem_append, List.mem_singleton] at h1 h2
  rcases h1 with h1 | h1 <;> rcases h2 with h2 | h2
  · exact h f1 h1 f2 h2 hi1 hi2
  · rw [h2]
    exact hold f1 h1 hi1 (h2 ▸ hi2)
  · rw [h1]
    exact (hold f2 h2 hi2 (h1 ▸ hi1)).symm
  · rw [h1, h2]

lemma reachable_ineqShared {q : Query} (h : Reachable q) : IneqShared q := by
  induction h with
  | root p cg =>
    intro f1 h1 f2 h2 hi1 hi2
    simp [Query.root] at h1
  | step c hr heq ih =>
    rename_i q q'
    cases c with
    | addingFilter f =>
      simp only [applyBuilder] at heq
      unfold Query.AddingFilter at heq
      by_cases hdoc : q.IsDocumentQuery = true
      · rw [if_pos hdoc] at heq
        simp at heq
      · rw [if_neg hdoc] at heq
        by_cases hfi : f.IsInequality = true
        · rw [if_pos hfi] at heq
          cases hI : q.InequalityFilterField with
          | some a =>
            simp only [hI] at heq
            by_cases haf : a = f.field
            · rw [if_pos haf] at heq
              injection heq with heq
              subst heq
              exact ineqShared_extend ih (fun _ => Or.inr (haf ▸ hI))
            · rw [if_neg haf] at heq
              simp at heq
          | none =>
            simp only [hI] at heq
            injection heq with heq
            subst heq
            exact ineqShared_extend ih (fun _ => Or.inl hI)
        · rw [if_neg hfi] at heq
          injection heq with heq
          subst heq
          exact ineqShared_extend ih (fun hcontra => absurd hcontra hfi)
    | addingOrderBy ob =>
      simp only [applyBuilder] at heq
      unfold Query.AddingOrderBy at heq
      by_cases hdoc : q.IsDocumentQuery = true
      · rw [if_pos hdoc] at heq
        simp at heq
      · rw [if_neg hdoc] at heq
        by_cases hE : q.explicit_order_bys = []
        · rw [if_pos hE] at heq
          cases hI : q.InequalityFilterField with
          | some a =>
            simp only [hI] at heq
            by_cases haf : a = ob.field
            · rw [if_pos haf] at heq
              injection heq with heq
              subst heq
              exact ih
            · rw [if_neg haf] at heq
              simp at heq
          | none =>
            simp only [hI] at heq
            injection heq with heq
            subst heq
            exact ih
        · rw [if_neg hE] at heq
          injection heq with heq
          subst heq
          exact ih
    | withLimit n =>
      simp only [applyBuilder] at heq
      injection heq with heq
      subst heq
      exact ih
    | startingAt b =>
      simp only [applyBuilder] at heq
      injection heq with heq
      subst heq
      exact ih
    | endingAt b =>
      simp only [applyBuilder] at heq
      injection heq with heq
      subst heq
      exact ih
    | asCollectionQueryAtPath p2 =>
      simp only [applyBuilder] at heq
      injection heq with heq
      subst heq
      exact ih

/-- Claim C7: on every reachable query, `AddingFilter` fails exactly on a
document query or when the added filter is an inequality on a field different
from an inequality filter already present, and `AddingOrderBy` fails exactly
on a document query or when this is the first explicit order-by and an
inequality filter on a different field exists; in every other case the
argument is appended to the respective sequence and every other field of the
result equals the receiver's. -/
theorem c7_builder_preconditions (q : Query) (hq : Reachable q) :
    (∀ f : Filter,
      (q.AddingFilter f = none ↔
        (q.IsDocumentQuery = true ∨
          (f.IsInequality = true ∧
            ∃ g ∈ q.filters, g.IsInequality = true ∧ g.field ≠ f.field)))
      ∧ (q.AddingFilter f ≠ none →
          q.AddingFilter f = some ⟨q.path, q.collection_group,
            q.filters ++ [f], q.explicit_order_bys, q.limit, q.start_at,
            q.end_at⟩))
    ∧ (∀ ob : OrderBy,
      (q.AddingOrderBy ob = none ↔
        (q.IsDocumentQuery = true ∨
          (q.explicit_order_bys = [] ∧
            ∃ g ∈ q.filters, g.IsInequality = true ∧ g.field ≠ ob.field)))
      ∧ (q.AddingOrderBy ob ≠ none →
          q.AddingOrderBy ob = some ⟨q.path, q.collection_group, q.filters,
            q.explicit_order_bys ++ [ob], q.limit, q.start_at, q.end_at⟩)) := by
  have hs : IneqShared q := reachable_ineqShared hq
  constructor
  · intro f
    unfold Query.AddingFilter
    by_cases hdoc : q.IsDocumentQuery = true
    · rw [if_pos hdoc]
      exact ⟨⟨fun _ => Or.inl hdoc, fun _ => rfl⟩, fun hcon => absurd rfl hcon⟩
    · rw [if_neg hdoc]
      by_cases hfi : f.IsInequality = true
      · rw [if_pos hfi]
        cases hI : q.InequalityFilterField with
        | some a =>
          simp only [hI]
          by_cases haf : a = f.field
          · rw [if_pos haf]
            refine ⟨⟨fun hcon => absurd hcon (by simp), ?_⟩, fun _ => rfl⟩
            rintro (hdq | ⟨_, hex⟩)
            · exact absurd hdq hdoc
            · obtain ⟨x, hx, hxne⟩ := (exists_diff_ineq_iff q hs f.field).mp hex
              rw [hI] at hx
              injection hx with hx
              exact absurd (hx ▸ haf) hxne
          · rw [if_neg haf]
            refine ⟨⟨fun _ => Or.inr ⟨hfi,
              (exists_diff_ineq_iff q hs f.field).mpr ⟨a, hI, haf⟩⟩,
              fun _ => rfl⟩, fun hcon => absurd rfl hcon⟩
        | none =>
          refine ⟨⟨fun hcon => absurd hcon (by simp), ?_⟩, fun _ => rfl⟩
          rintro (hdq | ⟨_, hex⟩)
          · exact absurd hdq hdoc
          · obtain ⟨x, hx, _⟩ := (exists_diff_ineq_iff q hs f.field).mp hex
            rw [hI] at hx
            cases hx
      · rw [if_neg hfi]
        refine ⟨⟨fun hcon => absurd hcon (by simp), ?_⟩, fun _ => rfl⟩
        rintro (hdq | ⟨hfi2, _⟩)
        · exact absurd hdq hdoc
        · exact absurd hfi2 hfi
  · intro ob
    unfold Query.AddingOrderBy
    by_cases hdoc : q.IsDocumentQuery = true
    · rw [if_pos hdoc]
      exact ⟨⟨fun _ => Or.inl hdoc, fun _ => rfl⟩, fun hcon => absurd rfl hcon⟩
    · rw [if_neg hdoc]
      by_cases hE : q.explicit_order_bys = []
      · rw [if_pos hE]
        cases hI : q.InequalityFilterField with
        | some a =>
          simp only [hI]
          by_cases haf : a = ob.field
          · rw [if_pos haf]
            refine ⟨⟨fun hcon => absurd hcon (by simp), ?_⟩, fun _ => rfl⟩
            rintro (hdq | ⟨_, hex⟩)
            · exact absurd hdq hdoc
            · obtain ⟨x, hx, hxne⟩ :=
                (exists_diff_ineq_iff q hs ob.field).mp hex
              rw [hI] at hx
              injection hx with hx
              exact absurd (hx ▸ haf) hxne
          · rw [if_neg haf]
            refine ⟨⟨fun _ => Or.inr ⟨hE,
              (exists_diff_ineq_iff q hs ob.field).mpr ⟨a, hI, haf⟩⟩,
              fun _ => rfl⟩, fun hcon => absurd rfl hcon⟩
        | none =>
          refine ⟨⟨fun hcon => absurd hcon (by simp), ?_⟩, fun _ => rfl⟩
          rintro (hdq | ⟨_, hex⟩)
          · exact absurd hdq hdoc
          · obtain ⟨x, hx, _⟩ := (exists_diff_ineq_iff q hs ob.field).mp hex
            rw [hI] at hx
            cases hx
      · rw [if_neg hE]
        refine ⟨⟨fun hcon => absurd hcon (by simp), ?_⟩, fun _ => rfl⟩
        rintro (hdq | ⟨hE2, _⟩)
        · exact absurd hdq hdoc
        · exact absurd hE2 hE

/-- Witness for claim C7 at the concrete reachable collection query on
`["rooms"]`: adding the filter `stars > 3` succeeds and appends it. -/
theorem c7_builder_preconditions_witness :
    Reachable (Query.root ["rooms"] none)
    ∧ (Query.root ["rooms"] none).AddingFilter fC7
        = some ⟨["rooms"], none, [fC7], [], none, none, none⟩ := by
  have hr : Reachable (Query.root ["rooms"] (none : Option String)) :=
    Reachable.root ["rooms"] none
  refine ⟨hr, ?_⟩
  exact ((c7_builder_preconditions (Query.root ["rooms"] none) hr).1 fC7).2
    (by decide)

end FirestoreCore
